import Mathlib

/-!
Verification development for the ESG document store and retrieval-augmented
analysis engine (carbon-agent).

The JavaScript source is shallowly embedded:
* CSV cell values (as produced by Papa.parse with dynamicTyping) are the
  inductive type `JVal`: a null/missing value, a string, or a number
  (modelled as a rational; IEEE floating point is abstracted to exact
  rational arithmetic).
* The JS truthiness test used by the `x || y` default pattern is `JVal.truthy`
  (null, the empty string and the number 0 are falsy).
* Stateful methods of `ChromaManager` become pure functions over an explicit
  environment describing the remote store's responses.
* The remote collection itself is external to the repository; where its
  behaviour matters it is modelled from the spec (see `storeUpsert`).
-/

/-- A JavaScript value as it appears in a parsed CSV record or metadata map:
absent/null, a string, or a number (rationals stand in for JS numbers). -/
inductive JVal where
  | null : JVal
  | str : String → JVal
  | num : ℚ → JVal
deriving DecidableEq

/-- JS truthiness: `null`/`undefined`, `""` and `0` are falsy, all other
strings and numbers are truthy. -/
def JVal.truthy : JVal → Bool
  | .null => false
  | .str s => !(s == "")
  | .num q => !(q == 0)

/-- The JS short-circuit default `v || d`: `v` when truthy, else `d`. -/
def JVal.orDefault (v d : JVal) : JVal := if v.truthy then v else d

/-- JS template-literal stringification of a value (number formatting is
abstracted by the rational's canonical string; no claim depends on it). -/
def jstr : JVal → String
  | .null => "null"
  | .str s => s
  | .num q => toString q

/-- One row of the ESG CSV after parsing: the fields read by
`chromaManager.js` (`processBatch` / `createDocumentText`). -/
structure ESGRecord where
  company : JVal
  ticker : JVal
  peerGroupRoot : JVal
  region : JVal
  country : JVal
  date : JVal
  totalEsgScore : JVal
  environmentScore : JVal
  socialScore : JVal
  governanceScore : JVal
  sclEnvironmentScore : JVal
  sclSocialScore : JVal
  sclGovernanceScore : JVal
  wghtEnvironmentScore : JVal
  wghtSocialScore : JVal
  wghtGovernanceScore : JVal
deriving DecidableEq

/-- A record with every field absent, used as the `getD` default. -/
def emptyRecord : ESGRecord :=
  ⟨.null, .null, .null, .null, .null, .null, .null, .null, .null, .null,
   .null, .null, .null, .null, .null, .null⟩

/-- The metadata map written for one record by `processBatch`
(`metadatas.push({...})` in chromaManager.js). -/
structure DocMetadata where
  company : JVal
  ticker : JVal
  peer_group : JVal
  region : JVal
  country : JVal
  date : JVal
  total_esg_score : JVal
  environment_score : JVal
  social_score : JVal
  governance_score : JVal
  scl_environment_score : JVal
  scl_social_score : JVal
  scl_governance_score : JVal
  wght_environment_score : JVal
  wght_social_score : JVal
  wght_governance_score : JVal
  record_type : JVal
deriving DecidableEq

/-- Metadata extraction for one record, as written by `processBatch`:
each field is the JS `record.X || default` expression. -/
def recordMetadata (r : ESGRecord) : DocMetadata where
  company := r.company.orDefault (.str "Unknown")
  ticker := r.ticker.orDefault (.str "")
  peer_group := r.peerGroupRoot.orDefault (.str "Unknown")
  region := r.region.orDefault (.str "Unknown")
  country := r.country.orDefault (.str "Unknown")
  date := r.date.orDefault (.num 0)
  total_esg_score := r.totalEsgScore.orDefault (.num 0)
  environment_score := r.environmentScore.orDefault (.num 0)
  social_score := r.socialScore.orDefault (.num 0)
  governance_score := r.governanceScore.orDefault (.num 0)
  scl_environment_score := r.sclEnvironmentScore.orDefault (.num 0)
  scl_social_score := r.sclSocialScore.orDefault (.num 0)
  scl_governance_score := r.sclGovernanceScore.orDefault (.num 0)
  wght_environment_score := r.wghtEnvironmentScore.orDefault (.num 0)
  wght_social_score := r.wghtSocialScore.orDefault (.num 0)
  wght_governance_score := r.wghtGovernanceScore.orDefault (.num 0)
  record_type := .str "esg_data"

/-- An empty metadata map used only as a `getD` default. -/
def emptyMetadata : DocMetadata := recordMetadata emptyRecord

/-- Document id assigned by `processBatch`:
the JS template string `esg_${record.Ticker || 'unknown'}_${record.Date || startIndex + i}`,
where `fallbackIndex` is `startIndex + i`. -/
def recordId (r : ESGRecord) (fallbackIndex : ℕ) : String :=
  "esg_" ++ jstr (r.ticker.orDefault (.str "unknown")) ++ "_" ++
    (if r.date.truthy then jstr r.date else toString fallbackIndex)

/-- The natural-language document text built by `createDocumentText`
(header lines followed by the prose paragraph; raw interpolations in the
prose use `jstr` directly, defaulted ones use `orDefault` as in the source). -/
def createDocumentText (r : ESGRecord) : String :=
  "Company: " ++ jstr (r.company.orDefault (.str "Unknown")) ++ "\n" ++
  "Ticker: " ++ jstr (r.ticker.orDefault (.str "N/A")) ++ "\n" ++
  "Peer Group: " ++ jstr (r.peerGroupRoot.orDefault (.str "Unknown")) ++ "\n" ++
  "Region: " ++ jstr (r.region.orDefault (.str "Unknown")) ++ "\n" ++
  "Country: " ++ jstr (r.country.orDefault (.str "Unknown")) ++ "\n" ++
  "Date: " ++ jstr (r.date.orDefault (.str "Unknown")) ++ "\n" ++
  "Total ESG Score: " ++ jstr (r.totalEsgScore.orDefault (.str "N/A")) ++ "\n" ++
  "Environmental Score: " ++ jstr (r.environmentScore.orDefault (.str "N/A")) ++ "\n" ++
  "Social Score: " ++ jstr (r.socialScore.orDefault (.str "N/A")) ++ "\n" ++
  "Governance Score: " ++ jstr (r.governanceScore.orDefault (.str "N/A")) ++ "\n" ++
  "Scaled Environmental Score: " ++ jstr (r.sclEnvironmentScore.orDefault (.str "N/A")) ++ "\n" ++
  "Scaled Social Score: " ++ jstr (r.sclSocialScore.orDefault (.str "N/A")) ++ "\n" ++
  "Scaled Governance Score: " ++ jstr (r.sclGovernanceScore.orDefault (.str "N/A")) ++ "\n" ++
  "Weighted Environmental Score: " ++ jstr (r.wghtEnvironmentScore.orDefault (.str "N/A")) ++ "\n" ++
  "Weighted Social Score: " ++ jstr (r.wghtSocialScore.orDefault (.str "N/A")) ++ "\n" ++
  "Weighted Governance Score: " ++ jstr (r.wghtGovernanceScore.orDefault (.str "N/A")) ++ "\n\n" ++
  "This company " ++ jstr r.company ++ " (" ++ jstr r.ticker ++ ") from the " ++
  jstr r.country ++ " in " ++ jstr r.region ++
  " region has a total ESG performance score of " ++ jstr r.totalEsgScore ++ ". \n" ++
  "The environmental performance score is " ++ jstr r.environmentScore ++
  ", social responsibility score is " ++ jstr r.socialScore ++
  ", and governance score is " ++ jstr r.governanceScore ++ ".\n" ++
  "The company belongs to the " ++ jstr r.peerGroupRoot ++
  " peer group. The scaled scores are: Environmental " ++ jstr r.sclEnvironmentScore ++
  ", Social " ++ jstr r.sclSocialScore ++ ", Governance " ++ jstr r.sclGovernanceScore ++ ".\n" ++
  "The weighted scores are: Environmental " ++ jstr r.wghtEnvironmentScore ++
  ", Social " ++ jstr r.wghtSocialScore ++ ", Governance " ++ jstr r.wghtGovernanceScore ++ "."

/-- The three parallel arrays built by `processBatch` and passed in one call
to `collection.add`. -/
structure BatchArrays where
  documents : List String
  metadatas : List DocMetadata
  ids : List String
deriving DecidableEq

/-- The `for` loop of `processBatch`: `idx` is the running `startIndex + i`. -/
def processBatchGo : List ESGRecord → ℕ → BatchArrays
  | [], _ => ⟨[], [], []⟩
  | r :: rest, idx =>
    let tail := processBatchGo rest (idx + 1)
    ⟨createDocumentText r :: tail.documents,
     recordMetadata r :: tail.metadatas,
     recordId r idx :: tail.ids⟩

/-- `processBatch(batch, startIndex)`: builds the three index-aligned arrays
for one batch. -/
def processBatch (batch : List ESGRecord) (startIndex : ℕ) : BatchArrays :=
  processBatchGo batch startIndex

/-- The collection contents: a list of `(id, document)` pairs. -/
abbrev Store := List (String × String)

/-- Modelled from the spec: the external vector store's `add` for a single
`(id, document)` pair. The store itself is not part of this repository; the
spec states that an id collision overwrites the previous document
("re-ingestion of the same logical record overwrites rather than
duplicates"), so adding upserts by id. -/
def storeUpsert (store : Store) (id doc : String) : Store :=
  store.filter (fun p => !(p.1 == id)) ++ [(id, doc)]

/-- Modelled from the spec: `collection.add({documents, metadatas, ids})`
processes the parallel arrays pairwise. -/
def storeAddBatch (store : Store) (ids docs : List String) : Store :=
  (ids.zip docs).foldl (fun s p => storeUpsert s p.1 p.2) store

/-- Number of documents in the store carrying a given id. -/
def storeCountId (store : Store) (id : String) : ℕ :=
  store.countP (fun p => p.1 == id)

/-- The batching loop of `addESGData`: `for (let i = 0; i < data.length; i += batchSize)
{ processBatch(data.slice(i, i + batchSize), i) }`, collecting the ids each
batch sends to the collection. Requires a positive batch size, exactly as the
JS loop does to terminate. -/
def ingestIdsGo (B : ℕ) (hB : 0 < B) : List ESGRecord → ℕ → List String
  | [], _ => []
  | r :: rest, start =>
    (processBatch ((r :: rest).take B) start).ids ++
      ingestIdsGo B hB ((r :: rest).drop B) (start + B)
termination_by l => l.length
decreasing_by
  simp only [List.length_drop, List.length_cons]
  omega

/-- `addESGData`, restricted to the sequence of ids it writes: the records are
processed in batches of size `B`, batch `k` starting at global index `k·B`. -/
def addESGDataIds (data : List ESGRecord) (B : ℕ) (hB : 0 < B) : List String :=
  ingestIdsGo B hB data 0

/-- The batching loop of `addESGData` acting on the collection: each batch's
`(ids, documents)` arrays are written through `storeAddBatch`. -/
def ingestStoreGo (B : ℕ) (hB : 0 < B) : List ESGRecord → ℕ → Store → Store
  | [], _, s => s
  | r :: rest, start, s =>
    ingestStoreGo B hB ((r :: rest).drop B) (start + B)
      (storeAddBatch s (processBatch ((r :: rest).take B) start).ids
        (processBatch ((r :: rest).take B) start).documents)
termination_by l => l.length
decreasing_by
  simp only [List.length_drop, List.length_cons]
  omega

/-- `addESGData` over an initial collection state. -/
def addESGDataStore (data : List ESGRecord) (B : ℕ) (hB : 0 < B) (s : Store) : Store :=
  ingestStoreGo B hB data 0 s

/-- The remote store's behaviour during `ensureCollection`, as seen by this
process: the listed collection names, and the outcome of `createCollection`
and `getCollection` by name. An `Except.error` is a rejected promise carrying
its message; `Except.ok none` is a resolved call yielding a null handle. -/
structure StoreEnv where
  listed : List String
  create : String → Except String (Option String)
  get : String → Except String (Option String)

/-- JS `String.prototype.includes`: substring test. -/
def strIncludes (s pat : String) : Bool :=
  s.data.tails.any (fun t => pat.data.isPrefixOf t)

/-- The create-error test of `ensureCollection`:
`message.includes('already exists') || message.includes('resource already exists')`. -/
def isAlreadyExistsError (msg : String) : Bool :=
  strIncludes msg "already exists" || strIncludes msg "resource already exists"

/-- `ensureCollection`: list, then GET when the name is listed; otherwise
CREATE, falling back to GET exactly once when CREATE fails with an
already-exists message; every other error is rethrown. The final null check
mirrors `if (!this.collection) throw new Error(...)`. -/
def ensureCollection (env : StoreEnv) (name : String) : Except String String :=
  let fetched : Except String (Option String) :=
    if env.listed.contains name then
      env.get name
    else
      match env.create name with
      | .ok h => .ok h
      | .error e => if isAlreadyExistsError e then env.get name else .error e
  match fetched with
  | .error e => .error e
  | .ok none => .error "Collection oluşturulamadı veya alınamadı"
  | .ok (some h) => .ok h

/-- The manager's fields touched by initialization: the ready flag and the
collection handle (the handle is the attached collection's name). -/
structure ManagerState where
  isReady : Bool
  collection : Option String
deriving DecidableEq

/-- `initialize()` of ChromaManager: runs `ensureCollection` and, on success,
ends in the ready state holding the obtained handle; on failure the error is
rethrown and the state is unchanged (client/embedding construction carries no
state relevant to the claims and is omitted). -/
def initManager (env : StoreEnv) (name : String) (_st : ManagerState) :
    Except String ManagerState :=
  match ensureCollection env name with
  | .error e => .error e
  | .ok h => .ok ⟨true, some h⟩

/-- One retrieval result, as assembled by `searchSimilar`. -/
structure SearchHit where
  document : String
  metadata : DocMetadata
  distance : ℚ
  similarity : ℚ
deriving DecidableEq

/-- The raw reply of `collection.query` used by `searchSimilar`: the first row
of `documents`, `metadatas` and `distances` (always index-aligned parallel
arrays of one length in ChromaDB replies). -/
structure QueryReply where
  documents : List String
  metadatas : List DocMetadata
  distances : List ℚ
deriving DecidableEq

/-- The `results.documents[0].map((doc, i) => ...)` mapping of `searchSimilar`:
walks the three parallel arrays in lockstep and sets
`similarity = 1 - distance`. -/
def searchHitsGo : List String → List DocMetadata → List ℚ → List SearchHit
  | d :: ds, m :: ms, q :: qs => ⟨d, m, q, 1 - q⟩ :: searchHitsGo ds ms qs
  | _, _, _ => []

/-- `searchSimilar`, given the store's reply: the list of scored hits
(the convenience wrappers `searchByCompany`, `searchByTicker`,
`searchByRegion`, `searchByCountry` and `searchBySector` all return this
same mapping, varying only the query text and filter sent to the store). -/
def searchSimilar (reply : QueryReply) : List SearchHit :=
  searchHitsGo reply.documents reply.metadatas reply.distances

/-- Round to two decimal places, modelling the `toFixed(2)` formatting the
analyzers apply to the numbers they report (the formatted string is
identified with the rational it denotes). -/
def toFixed2 (q : ℚ) : ℚ := (round (q * 100) : ℚ) / 100

/-- A metadata record as consumed by the analytics aggregators
(`esgAnalyzer.js`, `marketAnalyzer.js`): numeric score fields are `some q`
when present and parseable as a number, `none` when missing/unparseable
(JS `undefined` / NaN after `parseFloat`); the name fields the market
analyzer reads are optional strings. -/
structure AnalyzerMeta where
  total_esg_score : Option ℚ
  environment_score : Option ℚ
  social_score : Option ℚ
  governance_score : Option ℚ
  scl_environment_score : Option ℚ
  scl_social_score : Option ℚ
  scl_governance_score : Option ℚ
  wght_environment_score : Option ℚ
  wght_social_score : Option ℚ
  wght_governance_score : Option ℚ
  company_name : Option String
  sector : Option String
deriving DecidableEq

/-- A metadata record with every field absent. -/
def emptyAnalyzerMeta : AnalyzerMeta :=
  ⟨none, none, none, none, none, none, none, none, none, none, none, none⟩

/-- Dynamic field access `d[metric]` for the score fields the analyzers
request; any other name is `undefined`. -/
def getMetric (d : AnalyzerMeta) (metric : String) : Option ℚ :=
  if metric == "total_esg_score" then d.total_esg_score
  else if metric == "environment_score" then d.environment_score
  else if metric == "social_score" then d.social_score
  else if metric == "governance_score" then d.governance_score
  else if metric == "scl_environment_score" then d.scl_environment_score
  else if metric == "scl_social_score" then d.scl_social_score
  else if metric == "scl_governance_score" then d.scl_governance_score
  else if metric == "wght_environment_score" then d.wght_environment_score
  else if metric == "wght_social_score" then d.wght_social_score
  else if metric == "wght_governance_score" then d.wght_governance_score
  else none

/-- One per-metric entry of the trends object built by `calculateTrends`.
`changePercent` is `none` when the first value is 0: the quotient is then
mathematically undefined (JS produces a non-finite number there, reported
without an exception being thrown). -/
structure TrendEntry where
  current : ℚ
  change : ℚ
  changePercent : Option ℚ
  trend : String
  average : ℚ
deriving DecidableEq

/-- The body of the `metrics.forEach` loop of `calculateTrends` for one
metric's filtered value list: an entry is produced only when more than one
value is available. -/
def calcTrend (values : List ℚ) : Option TrendEntry :=
  match values with
  | v0 :: v1 :: rest =>
    let vals := v0 :: v1 :: rest
    let firstValue := v0
    let lastValue := vals.getLastD 0
    let change := lastValue - firstValue
    some
      { current := lastValue
        change := toFixed2 change
        changePercent :=
          if firstValue = 0 then none
          else some (toFixed2 ((change / firstValue) * 100))
        trend := if change > 0 then "yükseliş" else if change < 0 then "düşüş" else "sabit"
        average := toFixed2 (vals.sum / (vals.length : ℚ)) }
  | _ => none

/-- `calculateTrends(data, metrics)`: for every requested metric, the values
present in the data (`filter(v => v !== null && v !== undefined)`) are
analyzed; the resulting trends object is the list of `(metric, entry)` pairs
in metric order. -/
def calculateTrends (data : List AnalyzerMeta) (metrics : List String) :
    List (String × TrendEntry) :=
  metrics.filterMap fun m =>
    (calcTrend (data.filterMap (fun d => getMetric d m))).map (fun t => (m, t))

/-- One flagged risk of `assessRisks`. -/
structure RiskEntry where
  type : String
  level : String
  description : String
deriving DecidableEq

/-- The result object of `assessRisks`. -/
structure RiskAssessment where
  riskLevel : String
  risks : List RiskEntry
  totalRiskCount : ℕ
deriving DecidableEq

/-- The JS comparison `latestData?.environment_score < 40` and friends:
false when the chain yields `undefined`, the numeric comparison otherwise. -/
def optLtForty (o : Option ℚ) : Bool :=
  match o with
  | some q => decide (q < 40)
  | none => false

/-- The `data[data.length - 1] || data[0]` selection shared by the analyzer:
the last record when the list is non-empty, otherwise JS `undefined`. -/
def latestOf (data : List AnalyzerMeta) : Option AnalyzerMeta :=
  match data.getLast? with
  | some x => some x
  | none => data.head?

/-- `assessRisks(data)`: the latest record (`data[data.length - 1] || data[0]`)
is checked pillar by pillar; a pillar whose score is below 40 contributes one
risk entry, and the overall level buckets the number of flagged risks. -/
def assessRisks (data : List AnalyzerMeta) : RiskAssessment :=
  let latestData : Option AnalyzerMeta := latestOf data
  let risks : List RiskEntry :=
    (if optLtForty (latestData.bind (fun d => d.environment_score)) then
      [⟨"Çevresel Risk", "Yüksek", "Düşük çevresel performans skoru"⟩] else []) ++
    (if optLtForty (latestData.bind (fun d => d.social_score)) then
      [⟨"Sosyal Risk", "Yüksek", "Düşük sosyal sorumluluk skoru"⟩] else []) ++
    (if optLtForty (latestData.bind (fun d => d.governance_score)) then
      [⟨"Yönetişim Riski", "Yüksek", "Düşük kurumsal yönetim skoru"⟩] else [])
  { riskLevel :=
      if risks.length > 2 then "Yüksek"
      else if risks.length > 0 then "Orta"
      else "Düşük"
    risks := risks
    totalRiskCount := risks.length }

/-- A retrieval hit as consumed by the market analyzer (only the metadata
is read). -/
structure AHit where
  metadata : AnalyzerMeta
deriving DecidableEq

/-- Stable insertion of `x` into a list sorted descending by `f`. -/
def insertByDesc (f : AHit → ℚ) (x : AHit) : List AHit → List AHit
  | [] => [x]
  | y :: ys => if f y ≤ f x then x :: y :: ys else y :: insertByDesc f x ys

/-- Stable sort descending by `f`, modelling the JS
`sort((a, b) => f(b) - f(a))` (ES2019 sort is stable, and every stable sort
for this total preorder computes the same list). -/
def sortByDesc (f : AHit → ℚ) (l : List AHit) : List AHit :=
  l.foldr (insertByDesc f) []

/-- One entry of `topPerformers` (`company_name` and `sector` are read from
metadata fields the ingestion pipeline never writes, hence optional). -/
structure TopPerformer where
  company : Option String
  score : ℚ
  sector : Option String
deriving DecidableEq

/-- The result object of `analyzeSectorMetrics`. -/
structure SectorAnalysis where
  averageScore : ℚ
  topPerformers : List TopPerformer
  recommendations : List String
  totalCompanies : ℕ
deriving DecidableEq

/-- `generateRecommendations(averageScore, metric)` of the market analyzer:
one canned sentence per recognized metric, bucketed by the average. -/
def generateRecommendations (averageScore : ℚ) (metric : String) : List String :=
  (if metric == "environment_score" then
    [if averageScore < 50 then
      "Sektörde çevresel performans düşük. Karbon azaltma stratejileri öncelikli olmalı."
     else if averageScore < 70 then
      "Çevresel performans orta seviyede. Yenilenebilir enerji geçişi hızlandırılmalı."
     else
      "Çevresel performans yüksek. Sürdürülebilirlik liderliği için daha da geliştirilebilir."]
   else []) ++
  (if metric == "social_score" then
    [if averageScore < 50 then
      "Sosyal sorumluluk skorları düşük. Çalışan hakları ve toplumsal katkı artırılmalı."
     else if averageScore < 70 then
      "Sosyal performans orta seviyede. Paydaş ilişkileri güçlendirilmeli."
     else
      "Sosyal performans yüksek. Toplumsal etki projeleri genişletilebilir."]
   else [])

/-- `analyzeSectorMetrics(results, metric)`: the mean of the parseable metric
values (0 when none parse), the top performers ranked descending by the
metric (at most 10), the canned recommendations, and the count of parseable
values. -/
def analyzeSectorMetrics (results : List AHit) (metric : String) : SectorAnalysis :=
  let scores := results.filterMap (fun r => getMetric r.metadata metric)
  let averageScore : ℚ :=
    if scores.length > 0 then scores.sum / (scores.length : ℚ) else 0
  let sorted :=
    sortByDesc (fun r => (getMetric r.metadata metric).getD 0)
      (results.filter (fun r => (getMetric r.metadata metric).isSome))
  { averageScore := toFixed2 averageScore
    topPerformers :=
      (sorted.take 10).map fun r =>
        ⟨r.metadata.company_name, (getMetric r.metadata metric).getD 0,
          r.metadata.sector⟩
    recommendations := generateRecommendations averageScore metric
    totalCompanies := scores.length }

/-- One grouped entry returned by `getESGTrends` (the nested `scores`
object is flattened into fields). -/
structure TrendGroup where
  company : JVal
  ticker : JVal
  date : JVal
  country : JVal
  region : JVal
  peer_group : JVal
  total_esg : JVal
  environment : JVal
  social : JVal
  governance : JVal
  scl_environment : JVal
  scl_social : JVal
  scl_governance : JVal
  wght_environment : JVal
  wght_social : JVal
  wght_governance : JVal
deriving DecidableEq

/-- The grouping key of `getESGTrends`: the JS template string
`${meta.company}_${meta.date}`. -/
def trendKey (m : DocMetadata) : String := jstr m.company ++ "_" ++ jstr m.date

/-- The key a returned group displays, recomputed from its own fields. -/
def groupKey (g : TrendGroup) : String := jstr g.company ++ "_" ++ jstr g.date

/-- The entry `getESGTrends` builds from one metadata record. -/
def trendGroupOf (m : DocMetadata) : TrendGroup :=
  ⟨m.company, m.ticker, m.date, m.country, m.region, m.peer_group,
   m.total_esg_score, m.environment_score, m.social_score, m.governance_score,
   m.scl_environment_score, m.scl_social_score, m.scl_governance_score,
   m.wght_environment_score, m.wght_social_score, m.wght_governance_score⟩

/-- JS object property assignment `trends[key] = value`: replaces the value
of an existing key in place, otherwise appends (property insertion order is
preserved, as `Object.values` relies on). -/
def objSet : List (String × TrendGroup) → String → TrendGroup → List (String × TrendGroup)
  | [], k, v => [(k, v)]
  | (k', v') :: rest, k, v =>
    if k' = k then (k', v) :: rest else (k', v') :: objSet rest k v

/-- JS object property read `o[k]`. -/
def alookup : List (String × TrendGroup) → String → Option TrendGroup
  | [], _ => none
  | (k', v) :: rest, k => if k' = k then some v else alookup rest k

/-- The `forEach` accumulation of `getESGTrends` over the store's metadata
list, starting from a given object. -/
def trendsAcc (metas : List DocMetadata) (acc : List (String × TrendGroup)) :
    List (String × TrendGroup) :=
  metas.foldl (fun o m => objSet o (trendKey m) (trendGroupOf m)) acc

/-- `getESGTrends`, given the metadata list the collection returns for the
filter: groups by `${company}_${date}` (later records overwrite earlier ones
under the same key) and returns `Object.values` of the resulting object. -/
def getESGTrends (metas : List DocMetadata) : List TrendGroup :=
  (trendsAcc metas []).map Prod.snd

/-- The last element of a list satisfying a predicate, if any. -/
def lastWith (p : α → Bool) : List α → Option α
  | [] => none
  | x :: rest =>
    match lastWith p rest with
    | some y => some y
    | none => if p x then some x else none

lemma searchHitsGo_mem (ds : List String) :
    ∀ ms qs hit, hit ∈ searchHitsGo ds ms qs →
      hit.similarity = 1 - hit.distance ∧ hit.distance ∈ qs := by
  induction ds with
  | nil => intro ms qs hit h; simp [searchHitsGo] at h
  | cons d ds ih =>
    intro ms qs hit h
    match ms, qs with
    | [], _ => simp [searchHitsGo] at h
    | _ :: _, [] => simp [searchHitsGo] at h
    | m :: ms, q :: qs =>
      simp only [searchHitsGo, List.mem_cons] at h
      rcases h with h | h
      · subst h; exact ⟨rfl, List.mem_cons_self _ _⟩
      · rcases ih ms qs hit h with ⟨h1, h2⟩
        exact ⟨h1, List.mem_cons_of_mem _ h2⟩

lemma searchHitsGo_pairwise (ds : List String) :
    ∀ ms qs, List.Pairwise (· ≤ ·) qs →
      List.Pairwise (fun a b => b.similarity ≤ a.similarity) (searchHitsGo ds ms qs) := by
  induction ds with
  | nil => intro ms qs _; simp [searchHitsGo]
  | cons d ds ih =>
    intro ms qs hq
    match ms, qs with
    | [], _ => simp [searchHitsGo]
    | _ :: _, [] => simp [searchHitsGo]
    | m :: ms, q :: qs =>
      rcases List.pairwise_cons.mp hq with ⟨hhead, htail⟩
      refine List.pairwise_cons.mpr ⟨?_, ih ms qs htail⟩
      intro hit hmem
      rcases searchHitsGo_mem ds ms qs hit hmem with ⟨h1, h2⟩
      have hq' : q ≤ hit.distance := hhead _ h2
      simp only [h1]
      linarith

/-- C1: every hit returned by `searchSimilar` (and by each convenience
wrapper, which returns this very mapping) has `similarity = 1 - distance`;
the similarity is not clamped to `[0,1]` (a reply with distance 2 yields a
hit of similarity `-1 < 0`); and whenever the store returns the distances in
ascending order, the hit list is non-increasing in similarity. -/
theorem searchSimilar_similarity_ordering (reply : QueryReply) :
    (∀ hit ∈ searchSimilar reply, hit.similarity = 1 - hit.distance) ∧
    (List.Pairwise (· ≤ ·) reply.distances →
      List.Pairwise (fun a b => b.similarity ≤ a.similarity) (searchSimilar reply)) ∧
    (∃ reply2 : QueryReply, ∃ hit ∈ searchSimilar reply2, hit.similarity < 0) := by
  refine ⟨?_, ?_, ?_⟩
  · intro hit h
    exact (searchHitsGo_mem reply.documents reply.metadatas reply.distances hit h).1
  · intro hq
    exact searchHitsGo_pairwise reply.documents reply.metadatas reply.distances hq
  · refine ⟨⟨["d"], [emptyMetadata], [2]⟩, ⟨"d", emptyMetadata, 2, 1 - 2⟩, ?_, by norm_num⟩
    simp [searchSimilar, searchHitsGo]

/-- Witness for C1: a concrete two-hit reply with ascending distances is
returned non-increasing in similarity. -/
theorem searchSimilar_similarity_ordering_witness :
    List.Pairwise (· ≤ ·) ([0, 2] : List ℚ) ∧
      List.Pairwise (fun a b => b.similarity ≤ a.similarity)
        (searchSimilar ⟨["a", "b"], [emptyMetadata, emptyMetadata], [0, 2]⟩) := by
  have hp : List.Pairwise (· ≤ ·) ([0, 2] : List ℚ) := by
    norm_num [List.pairwise_cons]
  exact ⟨hp, (searchSimilar_similarity_ordering
    ⟨["a", "b"], [emptyMetadata, emptyMetadata], [0, 2]⟩).2.1 hp⟩

lemma processBatchGo_length (batch : List ESGRecord) :
    ∀ idx, (processBatchGo batch idx).documents.length = batch.length ∧
      (processBatchGo batch idx).metadatas.length = batch.length ∧
      (processBatchGo batch idx).ids.length = batch.length := by
  induction batch with
  | nil => intro idx; simp [processBatchGo]
  | cons r rest ih =>
    intro idx
    rcases ih (idx + 1) with ⟨h1, h2, h3⟩
    simp [processBatchGo, h1, h2, h3]

lemma processBatchGo_getD (batch : List ESGRecord) :
    ∀ idx i, i < batch.length →
      (processBatchGo batch idx).documents.getD i "" =
          createDocumentText (batch.getD i emptyRecord) ∧
      (processBatchGo batch idx).metadatas.getD i emptyMetadata =
          recordMetadata (batch.getD i emptyRecord) ∧
      (processBatchGo batch idx).ids.getD i "" =
          recordId (batch.getD i emptyRecord) (idx + i) := by
  induction batch with
  | nil => intro idx i h; simp at h
  | cons r rest ih =>
    intro idx i h
    cases i with
    | zero => simp [processBatchGo]
    | succ i =>
      have h' : i < rest.length := by
        have := Nat.lt_of_succ_lt_succ (by simpa using h)
        exact this
      rcases ih (idx + 1) i h' with ⟨h1, h2, h3⟩
      have harith : idx + (i + 1) = idx + 1 + i := by omega
      refine ⟨?_, ?_, ?_⟩
      · simpa [processBatchGo, List.getD_cons_succ] using h1
      · simpa [processBatchGo, List.getD_cons_succ] using h2
      · rw [harith]
        simpa [processBatchGo, List.getD_cons_succ] using h3

/-- C4: `processBatch` builds three arrays of one common length, the length
of the input batch, and the record at position `i` of the batch contributes
exactly the entry at position `i` of each array: its document text, its
metadata map, and its id (formed with fallback index `startIndex + i`). -/
theorem processBatch_arrays_aligned (batch : List ESGRecord) (startIndex : ℕ) :
    ((processBatch batch startIndex).documents.length = batch.length ∧
      (processBatch batch startIndex).metadatas.length = batch.length ∧
      (processBatch batch startIndex).ids.length = batch.length) ∧
    (∀ i, i < batch.length →
      (processBatch batch startIndex).documents.getD i "" =
          createDocumentText (batch.getD i emptyRecord) ∧
      (processBatch batch startIndex).metadatas.getD i emptyMetadata =
          recordMetadata (batch.getD i emptyRecord) ∧
      (processBatch batch startIndex).ids.getD i "" =
          recordId (batch.getD i emptyRecord) (startIndex + i)) := by
  exact ⟨processBatchGo_length batch startIndex,
    fun i h => processBatchGo_getD batch startIndex i h⟩

/-- Witness for C4: alignment evaluated on a concrete one-record batch. -/
theorem processBatch_arrays_aligned_witness :
    (0 : ℕ) < 1 ∧
      (processBatch [emptyRecord] 5).ids.getD 0 "" = recordId emptyRecord 5 := by
  refine ⟨by decide, ?_⟩
  have h := ((processBatch_arrays_aligned [emptyRecord] 5).2 0 (by decide)).2.2
  simpa using h

lemma jstr_orDefault_str (v : JVal) (s : String) :
    jstr (v.orDefault (.str s)) = if v.truthy then jstr v else s := by
  unfold JVal.orDefault
  split <;> rfl

lemma storeCountId_upsert (store : Store) (id doc : String) :
    storeCountId (storeUpsert store id doc) id = 1 := by
  unfold storeCountId storeUpsert
  rw [List.countP_append]
  have h0 : (store.filter fun p => !(p.1 == id)).countP (fun p => p.1 == id) = 0 := by
    rw [List.countP_eq_zero]
    intro a ha
    have hmem := List.mem_filter.mp ha
    simpa using hmem.2
  simp [h0]

/-- C2: the id `processBatch` assigns at position `i` is exactly
`esg_<ticker-or-unknown>_<date-or-startIndex+i>` (the fallbacks trigger on a
JS-falsy ticker resp. date, the code's test for absence); two records with
the same ticker and the same present date get the same id at any batch
position, and adding both to the collection leaves exactly one document
under that id. -/
theorem processBatch_id_deterministic (batch : List ESGRecord) (startIndex : ℕ)
    (r1 r2 : ESGRecord) (n m : ℕ) (store : Store) (d1 d2 : String) :
    (∀ i, i < batch.length →
      (processBatch batch startIndex).ids.getD i "" =
        "esg_" ++ (if (batch.getD i emptyRecord).ticker.truthy
                    then jstr (batch.getD i emptyRecord).ticker else "unknown") ++ "_" ++
          (if (batch.getD i emptyRecord).date.truthy
            then jstr (batch.getD i emptyRecord).date else toString (startIndex + i))) ∧
    (r1.ticker = r2.ticker → r1.date = r2.date → r1.date.truthy = true →
      recordId r1 n = recordId r2 m) ∧
    (r1.ticker = r2.ticker → r1.date = r2.date → r1.date.truthy = true →
      storeCountId
        (storeUpsert (storeUpsert store (recordId r1 n) d1) (recordId r2 m) d2)
        (recordId r2 m) = 1) := by
  have hdet : r1.ticker = r2.ticker → r1.date = r2.date → r1.date.truthy = true →
      recordId r1 n = recordId r2 m := by
    intro ht hd htr
    have htr2 : r2.date.truthy = true := hd ▸ htr
    unfold recordId
    rw [ht, hd]
    simp [htr2]
  refine ⟨?_, hdet, ?_⟩
  · intro i h
    have hid := (processBatchGo_getD batch startIndex i h).2.2
    unfold processBatch
    rw [hid]
    unfold recordId
    rw [jstr_orDefault_str]
  · intro ht hd htr
    exact storeCountId_upsert _ _ _

/-- Witness for C2: a concrete record with ticker AAPL and date 2023,
ingested at two different batch positions, keeps one document. -/
theorem processBatch_id_deterministic_witness :
    JVal.truthy (JVal.str "2023") = true ∧
      storeCountId
        (storeUpsert
          (storeUpsert []
            (recordId { emptyRecord with ticker := JVal.str "AAPL", date := JVal.str "2023" } 0) "a")
          (recordId { emptyRecord with ticker := JVal.str "AAPL", date := JVal.str "2023" } 7) "b")
        (recordId { emptyRecord with ticker := JVal.str "AAPL", date := JVal.str "2023" } 7) = 1 := by
  refine ⟨by decide, ?_⟩
  exact (processBatch_id_deterministic [] 0
    { emptyRecord with ticker := JVal.str "AAPL", date := JVal.str "2023" }
    { emptyRecord with ticker := JVal.str "AAPL", date := JVal.str "2023" }
    0 7 [] "a" "b").2.2 rfl rfl (by decide)

lemma processBatchGo_append (l1 : List ESGRecord) :
    ∀ (l2 : List ESGRecord) (idx : ℕ),
      processBatchGo (l1 ++ l2) idx =
        ⟨(processBatchGo l1 idx).documents ++
            (processBatchGo l2 (idx + l1.length)).documents,
          (processBatchGo l1 idx).metadatas ++
            (processBatchGo l2 (idx + l1.length)).metadatas,
          (processBatchGo l1 idx).ids ++
            (processBatchGo l2 (idx + l1.length)).ids⟩ := by
  induction l1 with
  | nil => intro l2 idx; simp [processBatchGo]
  | cons r rest ih =>
    intro l2 idx
    have harith : idx + (rest.length + 1) = idx + 1 + rest.length := by omega
    simp only [List.cons_append, processBatchGo, List.length_cons]
    simp [ih l2 (idx + 1), harith]

lemma ingestIdsGo_eq (B : ℕ) (hB : 0 < B) :
    ∀ (n : ℕ) (l : List ESGRecord), l.length ≤ n → ∀ start,
      ingestIdsGo B hB l start = (processBatchGo l start).ids := by
  intro n
  induction n with
  | zero =>
    intro l hl start
    have hnil : l = [] := List.eq_nil_of_length_eq_zero (Nat.le_zero.mp hl)
    subst hnil
    rw [ingestIdsGo]
    simp [processBatchGo]
  | succ n ih =>
    intro l hl start
    cases l with
    | nil =>
      rw [ingestIdsGo]
      simp [processBatchGo]
    | cons r rest =>
      rw [ingestIdsGo]
      have hlen : ((r :: rest).drop B).length ≤ n := by
        simp only [List.length_drop, List.length_cons]
        have : rest.length + 1 ≤ n + 1 := by simpa using hl
        omega
      rw [ih ((r :: rest).drop B) hlen (start + B)]
      unfold processBatch
      conv_rhs => rw [← List.take_append_drop B (r :: rest)]
      rw [processBatchGo_append]
      by_cases hBl : B ≤ (r :: rest).length
      · rw [List.length_take, min_eq_left hBl]
      · push_neg at hBl
        have hdrop : (r :: rest).drop B = [] := List.drop_eq_nil_of_le (le_of_lt hBl)
        rw [hdrop]
        simp [processBatchGo]

lemma storeAddBatch_append (s : Store) (i1 d1 i2 d2 : List String)
    (h : i1.length = d1.length) :
    storeAddBatch s (i1 ++ i2) (d1 ++ d2) =
      storeAddBatch (storeAddBatch s i1 d1) i2 d2 := by
  unfold storeAddBatch
  rw [List.zip_append h, List.foldl_append]

lemma ingestStoreGo_eq (B : ℕ) (hB : 0 < B) :
    ∀ (n : ℕ) (l : List ESGRecord), l.length ≤ n → ∀ start s,
      ingestStoreGo B hB l start s =
        storeAddBatch s (processBatchGo l start).ids
          (processBatchGo l start).documents := by
  intro n
  induction n with
  | zero =>
    intro l hl start s
    have hnil : l = [] := List.eq_nil_of_length_eq_zero (Nat.le_zero.mp hl)
    subst hnil
    rw [ingestStoreGo]
    simp [processBatchGo, storeAddBatch]
  | succ n ih =>
    intro l hl start s
    cases l with
    | nil =>
      rw [ingestStoreGo]
      simp [processBatchGo, storeAddBatch]
    | cons r rest =>
      rw [ingestStoreGo]
      have hlen : ((r :: rest).drop B).length ≤ n := by
        simp only [List.length_drop, List.length_cons]
        have : rest.length + 1 ≤ n + 1 := by simpa using hl
        omega
      rw [ih ((r :: rest).drop B) hlen (start + B)]
      unfold processBatch
      conv_rhs => rw [← List.take_append_drop B (r :: rest)]
      rw [processBatchGo_append]
      have hlens := processBatchGo_length ((r :: rest).take B) start
      have hids : ((processBatchGo ((r :: rest).take B) start).ids).length =
          ((processBatchGo ((r :: rest).take B) start).documents).length := by
        rw [hlens.2.2, hlens.1]
      rw [storeAddBatch_append _ _ _ _ _ hids]
      by_cases hBl : B ≤ (r :: rest).length
      · rw [List.length_take, min_eq_left hBl]
      · push_neg at hBl
        have hdrop : (r :: rest).drop B = [] := List.drop_eq_nil_of_le (le_of_lt hBl)
        rw [hdrop]
        simp [processBatchGo, storeAddBatch]

/-- C5: for every batch size `B > 0`, batched ingestion writes exactly the
same id sequence as a single all-at-once batch (the id fallback is the
record's global position), and leaves the collection in exactly the same
state as writing all records in one call — hence the same document ids and
the same final document count. -/
theorem addESGData_batching_equivalent (data : List ESGRecord) (B : ℕ)
    (hB : 0 < B) (s : Store) :
    addESGDataIds data B hB = (processBatch data 0).ids ∧
    addESGDataStore data B hB s =
      storeAddBatch s (processBatch data 0).ids (processBatch data 0).documents := by
  constructor
  · exact ingestIdsGo_eq B hB data.length data le_rfl 0
  · exact ingestStoreGo_eq B hB data.length data le_rfl 0 s

/-- Witness for C5: two records ingested with batch size 1 produce the ids
of the single two-record batch. -/
theorem addESGData_batching_equivalent_witness :
    (0 : ℕ) < 1 ∧
      addESGDataIds [emptyRecord, emptyRecord] 1 Nat.one_pos =
        (processBatch [emptyRecord, emptyRecord] 0).ids := by
  exact ⟨Nat.one_pos,
    (addESGData_batching_equivalent [emptyRecord, emptyRecord] 1 Nat.one_pos []).1⟩


/-- C3: when the target name is absent from the listed collections,
`ensureCollection` attempts CREATE and returns its handle on success; when
CREATE fails with an already-exists message it falls back to a single GET,
whose handle or error it returns as is; any other CREATE failure is
rethrown. When the collection is already listed and GET yields a handle,
`initialize()` (modelled by `initManager`) never raises and always ends
ready with that same handle — in particular calling it twice leaves both
calls in the same READY state with a non-null handle for the same name. -/
theorem ensureCollection_create_get_fallback (env : StoreEnv) (name : String)
    (h g : String) (e e2 : String) (st : ManagerState) :
    (name ∉ env.listed → env.create name = .ok (some h) →
      ensureCollection env name = .ok h) ∧
    (name ∉ env.listed → env.create name = .error e → isAlreadyExistsError e = true →
      env.get name = .ok (some g) → ensureCollection env name = .ok g) ∧
    (name ∉ env.listed → env.create name = .error e → isAlreadyExistsError e = true →
      env.get name = .error e2 → ensureCollection env name = .error e2) ∧
    (name ∉ env.listed → env.create name = .error e → isAlreadyExistsError e = false →
      ensureCollection env name = .error e) ∧
    (name ∈ env.listed → env.get name = .ok (some g) →
      initManager env name st = .ok ⟨true, some g⟩ ∧
        initManager env name ⟨true, some g⟩ = .ok ⟨true, some g⟩) := by
  refine ⟨?_, ?_, ?_, ?_, ?_⟩
  · intro hn hc
    have hnc : env.listed.contains name = false := by simpa using hn
    unfold ensureCollection
    simp [hn, hnc, hc]
  · intro hn hc hae hg
    have hnc : env.listed.contains name = false := by simpa using hn
    unfold ensureCollection
    simp [hn, hnc, hc, hae, hg]
  · intro hn hc hae hg
    have hnc : env.listed.contains name = false := by simpa using hn
    unfold ensureCollection
    simp [hn, hnc, hc, hae, hg]
  · intro hn hc hae
    have hnc : env.listed.contains name = false := by simpa using hn
    unfold ensureCollection
    simp [hn, hnc, hc, hae]
  · intro hn hg
    have hnc : env.listed.contains name = true := by simpa using hn
    have hens : ensureCollection env name = .ok g := by
      unfold ensureCollection
      simp [hn, hnc, hg]
    constructor
    · unfold initManager
      rw [hens]
    · unfold initManager
      rw [hens]

/-- Witness for C3: against a store that already lists the collection and
serves it on GET, two consecutive initializations both end READY with the
same handle. -/
theorem ensureCollection_create_get_fallback_witness :
    ("esg_documents" ∈
        (StoreEnv.mk ["esg_documents"] (fun _ => Except.error "already exists")
          (fun n => Except.ok (some n))).listed) ∧
      initManager
        (StoreEnv.mk ["esg_documents"] (fun _ => Except.error "already exists")
          (fun n => Except.ok (some n)))
        "esg_documents" ⟨false, none⟩ = .ok ⟨true, some "esg_documents"⟩ ∧
      initManager
        (StoreEnv.mk ["esg_documents"] (fun _ => Except.error "already exists")
          (fun n => Except.ok (some n)))
        "esg_documents" ⟨true, some "esg_documents"⟩ =
          .ok ⟨true, some "esg_documents"⟩ := by
  refine ⟨by decide, ?_⟩
  exact (ensureCollection_create_get_fallback
    (StoreEnv.mk ["esg_documents"] (fun _ => Except.error "already exists")
      (fun n => Except.ok (some n)))
    "esg_documents" "x" "esg_documents" "e" "e2" ⟨false, none⟩).2.2.2.2
    (by decide) rfl

/-- C6: for a metric with at least two available values the trend analyzer
reports current = last value, change = last − first, changePercent =
change/first·100 (undefined — reported as absent, with the entry still
returned rather than an exception — when the first value is 0), average =
the arithmetic mean, and trend "yükseliş" when change > 0, "düşüş" when
change < 0 (reported values carry the toFixed(2) rounding the source
applies); on env values [50, 60] it reports change 10, changePercent 20,
trend "yükseliş"; on [60, 50] change −10, changePercent −16.67, trend
"düşüş"; on [0, 10] changePercent is absent and no exception occurs. -/
theorem calculateTrends_first_last_formulas
    (data : List AnalyzerMeta) (metrics : List String) (v0 v1 : ℚ) (rest : List ℚ) :
    (∃ t, calcTrend (v0 :: v1 :: rest) = some t ∧
      t.current = (v0 :: v1 :: rest).getLastD 0 ∧
      t.change = toFixed2 ((v0 :: v1 :: rest).getLastD 0 - v0) ∧
      t.changePercent = (if v0 = 0 then none
        else some (toFixed2 ((((v0 :: v1 :: rest).getLastD 0 - v0) / v0) * 100))) ∧
      t.average = toFixed2 ((v0 :: v1 :: rest).sum / ((v0 :: v1 :: rest).length : ℚ)) ∧
      t.trend = (if (v0 :: v1 :: rest).getLastD 0 - v0 > 0 then "yükseliş"
        else if (v0 :: v1 :: rest).getLastD 0 - v0 < 0 then "düşüş" else "sabit")) ∧
    (∀ m t, (m, t) ∈ calculateTrends data metrics →
      m ∈ metrics ∧ calcTrend (data.filterMap (fun d => getMetric d m)) = some t) ∧
    calculateTrends
        [{ emptyAnalyzerMeta with environment_score := some 50 },
         { emptyAnalyzerMeta with environment_score := some 60 }]
        ["environment_score"] =
      [("environment_score", ⟨60, 10, some 20, "yükseliş", 55⟩)] ∧
    calculateTrends
        [{ emptyAnalyzerMeta with environment_score := some 60 },
         { emptyAnalyzerMeta with environment_score := some 50 }]
        ["environment_score"] =
      [("environment_score", ⟨50, -10, some (-1667/100), "düşüş", 55⟩)] ∧
    calculateTrends
        [{ emptyAnalyzerMeta with environment_score := some 0 },
         { emptyAnalyzerMeta with environment_score := some 10 }]
        ["environment_score"] =
      [("environment_score", ⟨10, 10, none, "yükseliş", 5⟩)] := by
  refine ⟨?_, ?_, ?_, ?_, ?_⟩
  · exact ⟨_, rfl, rfl, rfl, rfl, rfl, rfl⟩
  · intro m t hmt
    unfold calculateTrends at hmt
    rcases List.mem_filterMap.mp hmt with ⟨m', hm', hopt⟩
    rcases Option.map_eq_some'.mp hopt with ⟨t', ht', heq⟩
    rcases Prod.mk.injEq .. ▸ heq with h
    have hm : m' = m := congrArg Prod.fst heq
    have ht : t' = t := congrArg Prod.snd heq
    subst hm
    subst ht
    exact ⟨hm', ht'⟩
  all_goals
    have hg : ∀ d : AnalyzerMeta, getMetric d "environment_score" = d.environment_score := by
      intro d
      simp [getMetric]
  all_goals
    norm_num [calculateTrends, List.filterMap_cons, List.filterMap_nil, hg,
      emptyAnalyzerMeta, calcTrend, toFixed2, round_eq]

/-- Witness for C6: the `(metric, entry)` membership hypothesis discharged on
the concrete [50, 60] series. -/
theorem calculateTrends_first_last_formulas_witness :
    ("environment_score", (⟨60, 10, some 20, "yükseliş", 55⟩ : TrendEntry)) ∈
      calculateTrends
        [{ emptyAnalyzerMeta with environment_score := some 50 },
         { emptyAnalyzerMeta with environment_score := some 60 }]
        ["environment_score"] ∧
    "environment_score" ∈ ["environment_score"] := by
  have h := calculateTrends_first_last_formulas
    [{ emptyAnalyzerMeta with environment_score := some 50 },
     { emptyAnalyzerMeta with environment_score := some 60 }]
    ["environment_score"] 0 0 []
  have hmem : ("environment_score", (⟨60, 10, some 20, "yükseliş", 55⟩ : TrendEntry)) ∈
      calculateTrends
        [{ emptyAnalyzerMeta with environment_score := some 50 },
         { emptyAnalyzerMeta with environment_score := some 60 }]
        ["environment_score"] := by
    rw [h.2.2.1]
    exact List.mem_singleton.mpr rfl
  exact ⟨hmem, (h.2.1 _ _ hmem).1⟩

/-- A concrete analyzer record with environment 30, social 80,
governance 80, used in the C7 example. -/
def riskExampleMeta : AnalyzerMeta :=
  { emptyAnalyzerMeta with
      environment_score := some 30
      social_score := some 80
      governance_score := some 80 }

/-- C7: `assessRisks` flags exactly one risk per pillar whose (latest) score
is below 40 — "Çevresel Risk" for environment, "Sosyal Risk" for social,
"Yönetişim Riski" for governance — and buckets the overall level as
"Yüksek" when at least 3 risks are flagged, "Orta" when 1 or 2, "Düşük"
when 0; on a record with environment 30, social 80, governance 80 it
returns exactly one risk ("Çevresel Risk") and level "Orta". -/
theorem assessRisks_thresholds (data : List AnalyzerMeta) :
    ((assessRisks data).risks.countP (fun r => r.type == "Çevresel Risk") =
        if optLtForty ((latestOf data).bind (fun d => d.environment_score)) then 1 else 0) ∧
    ((assessRisks data).risks.countP (fun r => r.type == "Sosyal Risk") =
        if optLtForty ((latestOf data).bind (fun d => d.social_score)) then 1 else 0) ∧
    ((assessRisks data).risks.countP (fun r => r.type == "Yönetişim Riski") =
        if optLtForty ((latestOf data).bind (fun d => d.governance_score)) then 1 else 0) ∧
    (assessRisks data).totalRiskCount = (assessRisks data).risks.length ∧
    (3 ≤ (assessRisks data).totalRiskCount → (assessRisks data).riskLevel = "Yüksek") ∧
    ((assessRisks data).totalRiskCount = 1 ∨ (assessRisks data).totalRiskCount = 2 →
      (assessRisks data).riskLevel = "Orta") ∧
    ((assessRisks data).totalRiskCount = 0 → (assessRisks data).riskLevel = "Düşük") ∧
    assessRisks [riskExampleMeta] =
      ⟨"Orta", [⟨"Çevresel Risk", "Yüksek", "Düşük çevresel performans skoru"⟩], 1⟩ := by
  refine ⟨?_, ?_, ?_, ?_, ?_, ?_, ?_, ?_⟩
  · cases hE : optLtForty ((latestOf data).bind (fun d => d.environment_score)) <;>
    cases hS : optLtForty ((latestOf data).bind (fun d => d.social_score)) <;>
    cases hG : optLtForty ((latestOf data).bind (fun d => d.governance_score)) <;>
      simp [assessRisks, hE, hS, hG, List.countP_cons, List.countP_nil]
  · cases hE : optLtForty ((latestOf data).bind (fun d => d.environment_score)) <;>
    cases hS : optLtForty ((latestOf data).bind (fun d => d.social_score)) <;>
    cases hG : optLtForty ((latestOf data).bind (fun d => d.governance_score)) <;>
      simp [assessRisks, hE, hS, hG, List.countP_cons, List.countP_nil]
  · cases hE : optLtForty ((latestOf data).bind (fun d => d.environment_score)) <;>
    cases hS : optLtForty ((latestOf data).bind (fun d => d.social_score)) <;>
    cases hG : optLtForty ((latestOf data).bind (fun d => d.governance_score)) <;>
      simp [assessRisks, hE, hS, hG, List.countP_cons, List.countP_nil]
  · simp [assessRisks]
  · cases hE : optLtForty ((latestOf data).bind (fun d => d.environment_score)) <;>
    cases hS : optLtForty ((latestOf data).bind (fun d => d.social_score)) <;>
    cases hG : optLtForty ((latestOf data).bind (fun d => d.governance_score)) <;>
      simp [assessRisks, hE, hS, hG]
  · cases hE : optLtForty ((latestOf data).bind (fun d => d.environment_score)) <;>
    cases hS : optLtForty ((latestOf data).bind (fun d => d.social_score)) <;>
    cases hG : optLtForty ((latestOf data).bind (fun d => d.governance_score)) <;>
      simp [assessRisks, hE, hS, hG]
  · cases hE : optLtForty ((latestOf data).bind (fun d => d.environment_score)) <;>
    cases hS : optLtForty ((latestOf data).bind (fun d => d.social_score)) <;>
    cases hG : optLtForty ((latestOf data).bind (fun d => d.governance_score)) <;>
      simp [assessRisks, hE, hS, hG]
  · norm_num [assessRisks, latestOf, optLtForty, riskExampleMeta, emptyAnalyzerMeta]

/-- Witness for C7: the bucketing hypothesis discharged at one flagged risk. -/
theorem assessRisks_thresholds_witness :
    ((assessRisks [riskExampleMeta]).totalRiskCount = 1 ∨
      (assessRisks [riskExampleMeta]).totalRiskCount = 2) ∧
    (assessRisks [riskExampleMeta]).riskLevel = "Orta" := by
  have h := assessRisks_thresholds [riskExampleMeta]
  have hcount : (assessRisks [riskExampleMeta]).totalRiskCount = 1 := by
    rw [h.2.2.2.2.2.2.2]
  exact ⟨Or.inl hcount, h.2.2.2.2.2.1 (Or.inl hcount)⟩

lemma mem_insertByDesc (f : AHit → ℚ) (x : AHit) :
    ∀ (l : List AHit) (y : AHit), y ∈ insertByDesc f x l → y = x ∨ y ∈ l := by
  intro l
  induction l with
  | nil => intro y hy; simpa [insertByDesc] using hy
  | cons z zs ih =>
    intro y hy
    by_cases hz : f z ≤ f x
    · simp only [insertByDesc, if_pos hz, List.mem_cons] at hy
      rcases hy with h | h | h
      · exact Or.inl h
      · exact Or.inr (List.mem_cons.mpr (Or.inl h))
      · exact Or.inr (List.mem_cons.mpr (Or.inr h))
    · simp only [insertByDesc, if_neg hz, List.mem_cons] at hy
      rcases hy with h | h
      · exact Or.inr (List.mem_cons.mpr (Or.inl h))
      · rcases ih y h with h' | h'
        · exact Or.inl h'
        · exact Or.inr (List.mem_cons.mpr (Or.inr h'))

lemma pairwise_insertByDesc (f : AHit → ℚ) (x : AHit) :
    ∀ (l : List AHit),
      List.Pairwise (fun a b => f b ≤ f a) l →
      List.Pairwise (fun a b => f b ≤ f a) (insertByDesc f x l) := by
  intro l
  induction l with
  | nil => intro _; simp [insertByDesc]
  | cons z zs ih =>
    intro hp
    rcases List.pairwise_cons.mp hp with ⟨hz, hzs⟩
    by_cases hle : f z ≤ f x
    · simp only [insertByDesc, if_pos hle]
      refine List.pairwise_cons.mpr ⟨?_, hp⟩
      intro y hy
      rcases List.mem_cons.mp hy with h | h
      · subst h; exact hle
      · exact le_trans (hz y h) hle
    · simp only [insertByDesc, if_neg hle]
      refine List.pairwise_cons.mpr ⟨?_, ih hzs⟩
      intro y hy
      rcases mem_insertByDesc f x zs y hy with h | h
      · subst h; exact le_of_lt (lt_of_not_le hle)
      · exact hz y h

lemma pairwise_sortByDesc (f : AHit → ℚ) (l : List AHit) :
    List.Pairwise (fun a b => f b ≤ f a) (sortByDesc f l) := by
  induction l with
  | nil => simp [sortByDesc]
  | cons x xs ih => exact pairwise_insertByDesc f x (sortByDesc f xs) ih

/-- C8: the sector analyzer averages exactly the metric values that parse as
numbers (reporting averageScore 0 and totalCompanies 0, with no division,
when none do), and its topPerformers are ordered non-increasing in the
metric; on environment scores [40, 50, 90] it reports averageScore 60
(printed "60.00") and topPerformers with scores [90, 50, 40]. -/
theorem analyzeSectorMetrics_mean_ranking (results : List AHit) (metric : String) :
    (results.filterMap (fun r => getMetric r.metadata metric) = [] →
      (analyzeSectorMetrics results metric).averageScore = 0 ∧
        (analyzeSectorMetrics results metric).totalCompanies = 0) ∧
    (results.filterMap (fun r => getMetric r.metadata metric) ≠ [] →
      (analyzeSectorMetrics results metric).averageScore =
        toFixed2 ((results.filterMap (fun r => getMetric r.metadata metric)).sum /
          ((results.filterMap (fun r => getMetric r.metadata metric)).length : ℚ))) ∧
    (analyzeSectorMetrics results metric).totalCompanies =
      (results.filterMap (fun r => getMetric r.metadata metric)).length ∧
    List.Pairwise (fun a b => b.score ≤ a.score)
      (analyzeSectorMetrics results metric).topPerformers ∧
    (analyzeSectorMetrics
        [⟨{ emptyAnalyzerMeta with environment_score := some 40 }⟩,
         ⟨{ emptyAnalyzerMeta with environment_score := some 50 }⟩,
         ⟨{ emptyAnalyzerMeta with environment_score := some 90 }⟩]
        "environment_score").averageScore = 60 ∧
    (analyzeSectorMetrics
        [⟨{ emptyAnalyzerMeta with environment_score := some 40 }⟩,
         ⟨{ emptyAnalyzerMeta with environment_score := some 50 }⟩,
         ⟨{ emptyAnalyzerMeta with environment_score := some 90 }⟩]
        "environment_score").topPerformers.map (fun p => p.score) = [90, 50, 40] := by
  refine ⟨?_, ?_, ?_, ?_, ?_, ?_⟩
  · intro hempty
    constructor
    · simp [analyzeSectorMetrics, hempty, toFixed2]
    · simp [analyzeSectorMetrics, hempty]
  · intro hne
    have hpos : 0 < (results.filterMap (fun r => getMetric r.metadata metric)).length :=
      List.length_pos.mpr hne
    simp [analyzeSectorMetrics, hpos]
  · simp [analyzeSectorMetrics]
  · have hsorted := pairwise_sortByDesc (fun r => (getMetric r.metadata metric).getD 0)
      (results.filter (fun r => (getMetric r.metadata metric).isSome))
    have htake := hsorted.sublist (List.take_sublist 10 _)
    simp only [analyzeSectorMetrics]
    rw [List.pairwise_map]
    exact htake
  · have hg : ∀ d : AnalyzerMeta, getMetric d "environment_score" = d.environment_score := by
      intro d
      simp [getMetric]
    norm_num [analyzeSectorMetrics, hg, emptyAnalyzerMeta, toFixed2,
      List.filterMap_cons, List.filterMap_nil]
  · have hg : ∀ d : AnalyzerMeta, getMetric d "environment_score" = d.environment_score := by
      intro d
      simp [getMetric]
    norm_num [analyzeSectorMetrics, hg, emptyAnalyzerMeta, toFixed2,
      List.filterMap_cons, List.filterMap_nil, sortByDesc, insertByDesc]

/-- Witness for C8: the no-parseable-values hypothesis discharged on an
empty hit list. -/
theorem analyzeSectorMetrics_mean_ranking_witness :
    ([] : List AHit).filterMap (fun r => getMetric r.metadata "environment_score") = [] ∧
      (analyzeSectorMetrics [] "environment_score").averageScore = 0 ∧
      (analyzeSectorMetrics [] "environment_score").totalCompanies = 0 := by
  have h := (analyzeSectorMetrics_mean_ranking [] "environment_score").1 rfl
  exact ⟨rfl, h.1, h.2⟩

/-- Counterexample for C9: a record whose environment score is the
non-numeric, non-empty string "abc" (as Papa.parse leaves a non-numeric CSV
cell) is written to metadata unchanged — the JS `record.environment_score
|| 0` default only replaces falsy values, so the score metadata is the
string "abc", not the number 0. -/
theorem recordMetadata_nonnumeric_passthrough :
    (recordMetadata { emptyRecord with environmentScore := JVal.str "abc" }).environment_score
        = JVal.str "abc" ∧
      (recordMetadata { emptyRecord with environmentScore := JVal.str "abc" }).environment_score
        ≠ JVal.num 0 := by
  constructor
  · rfl
  · intro h
    simp [recordMetadata, JVal.orDefault, JVal.truthy] at h

/-- C9 (amended): every score metadata field is the number 0 exactly when the
record's value is JS-falsy (absent, the empty string, or the number 0);
a truthy value — including a non-numeric, non-empty string — is copied
through unchanged; and the metadata always carries the constant
discriminator `record_type = "esg_data"`. -/
theorem recordMetadata_score_defaults (r : ESGRecord) :
    (r.environmentScore.truthy = false → (recordMetadata r).environment_score = JVal.num 0) ∧
    (r.environmentScore.truthy = true → (recordMetadata r).environment_score = r.environmentScore) ∧
    (r.socialScore.truthy = false → (recordMetadata r).social_score = JVal.num 0) ∧
    (r.socialScore.truthy = true → (recordMetadata r).social_score = r.socialScore) ∧
    (r.governanceScore.truthy = false → (recordMetadata r).governance_score = JVal.num 0) ∧
    (r.governanceScore.truthy = true → (recordMetadata r).governance_score = r.governanceScore) ∧
    (r.totalEsgScore.truthy = false → (recordMetadata r).total_esg_score = JVal.num 0) ∧
    (r.totalEsgScore.truthy = true → (recordMetadata r).total_esg_score = r.totalEsgScore) ∧
    (r.sclEnvironmentScore.truthy = false → (recordMetadata r).scl_environment_score = JVal.num 0) ∧
    (r.sclEnvironmentScore.truthy = true → (recordMetadata r).scl_environment_score = r.sclEnvironmentScore) ∧
    (r.sclSocialScore.truthy = false → (recordMetadata r).scl_social_score = JVal.num 0) ∧
    (r.sclSocialScore.truthy = true → (recordMetadata r).scl_social_score = r.sclSocialScore) ∧
    (r.sclGovernanceScore.truthy = false → (recordMetadata r).scl_governance_score = JVal.num 0) ∧
    (r.sclGovernanceScore.truthy = true → (recordMetadata r).scl_governance_score = r.sclGovernanceScore) ∧
    (r.wghtEnvironmentScore.truthy = false → (recordMetadata r).wght_environment_score = JVal.num 0) ∧
    (r.wghtEnvironmentScore.truthy = true → (recordMetadata r).wght_environment_score = r.wghtEnvironmentScore) ∧
    (r.wghtSocialScore.truthy = false → (recordMetadata r).wght_social_score = JVal.num 0) ∧
    (r.wghtSocialScore.truthy = true → (recordMetadata r).wght_social_score = r.wghtSocialScore) ∧
    (r.wghtGovernanceScore.truthy = false → (recordMetadata r).wght_governance_score = JVal.num 0) ∧
    (r.wghtGovernanceScore.truthy = true → (recordMetadata r).wght_governance_score = r.wghtGovernanceScore) ∧
    (recordMetadata r).record_type = JVal.str "esg_data" := by
  refine ⟨?_, ?_, ?_, ?_, ?_, ?_, ?_, ?_, ?_, ?_, ?_, ?_, ?_, ?_, ?_, ?_, ?_, ?_, ?_, ?_, rfl⟩
  all_goals intro h
  all_goals simp [recordMetadata, JVal.orDefault, h]

/-- Witness for C9: the falsy and truthy hypotheses discharged on concrete
absent and string-valued scores. -/
theorem recordMetadata_score_defaults_witness :
    JVal.truthy JVal.null = false ∧
      (recordMetadata emptyRecord).environment_score = JVal.num 0 ∧
      JVal.truthy (JVal.str "abc") = true ∧
      (recordMetadata { emptyRecord with environmentScore := JVal.str "abc" }).environment_score
        = JVal.str "abc" := by
  refine ⟨rfl, (recordMetadata_score_defaults emptyRecord).1 rfl, by decide, ?_⟩
  exact (recordMetadata_score_defaults
    { emptyRecord with environmentScore := JVal.str "abc" }).2.1 (by decide)

/-- The property keys of the trends object, in insertion order. -/
def keysOf (l : List (String × TrendGroup)) : List String := l.map Prod.fst

lemma groupKey_trendGroupOf (m : DocMetadata) :
    groupKey (trendGroupOf m) = trendKey m := rfl

lemma alookup_objSet_self (acc : List (String × TrendGroup)) (k : String) (g : TrendGroup) :
    alookup (objSet acc k g) k = some g := by
  induction acc with
  | nil => simp [objSet, alookup]
  | cons p rest ih =>
    obtain ⟨k0, v0⟩ := p
    by_cases h0 : k0 = k
    · subst h0
      simp [objSet, alookup]
    · simp [objSet, h0, alookup, ih]

lemma alookup_objSet_ne (acc : List (String × TrendGroup)) (k : String) (g : TrendGroup)
    (k' : String) (hne : k' ≠ k) :
    alookup (objSet acc k g) k' = alookup acc k' := by
  have hne' : k ≠ k' := Ne.symm hne
  induction acc with
  | nil => simp [objSet, alookup, hne']
  | cons p rest ih =>
    obtain ⟨k0, v0⟩ := p
    by_cases h0 : k0 = k
    · subst h0
      simp [objSet, alookup, hne']
    · simp only [objSet, if_neg h0]
      by_cases h1 : k0 = k'
      · simp [alookup, h1]
      · simp [alookup, h1, ih]

lemma mem_keys_objSet (acc : List (String × TrendGroup)) (k : String) (g : TrendGroup)
    (k' : String) : k' ∈ keysOf (objSet acc k g) ↔ k' ∈ keysOf acc ∨ k' = k := by
  induction acc with
  | nil => simp [objSet, keysOf]
  | cons p rest ih =>
    obtain ⟨k0, v0⟩ := p
    by_cases h0 : k0 = k
    · subst h0
      simp only [objSet, eq_self_iff_true, if_true, keysOf, List.map_cons, List.mem_cons]
      simp only [keysOf] at ih
      tauto
    · simp only [objSet, if_neg h0, keysOf, List.map_cons, List.mem_cons]
      simp only [keysOf] at ih
      rw [ih]
      tauto

lemma nodup_keys_objSet (acc : List (String × TrendGroup)) (k : String) (g : TrendGroup)
    (hnd : (keysOf acc).Nodup) : (keysOf (objSet acc k g)).Nodup := by
  induction acc with
  | nil => simp [objSet, keysOf]
  | cons p rest ih =>
    obtain ⟨k0, v0⟩ := p
    simp only [keysOf, List.map_cons, List.nodup_cons] at hnd
    by_cases h0 : k0 = k
    · subst h0
      simp only [objSet, eq_self_iff_true, if_true, keysOf, List.map_cons, List.nodup_cons]
      exact ⟨hnd.1, hnd.2⟩
    · simp only [objSet, if_neg h0, keysOf, List.map_cons, List.nodup_cons]
      refine ⟨?_, ih hnd.2⟩
      intro hmem
      rcases (mem_keys_objSet rest k g k0).mp hmem with h | h
      · exact hnd.1 h
      · exact h0 h

lemma mem_objSet (acc : List (String × TrendGroup)) (k : String) (g : TrendGroup)
    (p : String × TrendGroup) (hp : p ∈ objSet acc k g) : p = (k, g) ∨ p ∈ acc := by
  induction acc with
  | nil =>
    simp only [objSet, List.mem_singleton] at hp
    exact Or.inl hp
  | cons q rest ih =>
    obtain ⟨k0, v0⟩ := q
    by_cases h0 : k0 = k
    · subst h0
      simp only [objSet, eq_self_iff_true, if_true, List.mem_cons] at hp
      tauto
    · simp only [objSet, if_neg h0, List.mem_cons] at hp
      rcases hp with h | h
      · exact Or.inr (List.mem_cons.mpr (Or.inl h))
      · rcases ih h with h' | h'
        · exact Or.inl h'
        · exact Or.inr (List.mem_cons.mpr (Or.inr h'))

lemma trendsAcc_alookup (metas : List DocMetadata) :
    ∀ (acc : List (String × TrendGroup)) (k : String),
      alookup (trendsAcc metas acc) k =
        (match lastWith (fun m => trendKey m == k) metas with
        | some m => some (trendGroupOf m)
        | none => alookup acc k) := by
  induction metas with
  | nil => intro acc k; rfl
  | cons m rest ih =>
    intro acc k
    have hstep : trendsAcc (m :: rest) acc =
        trendsAcc rest (objSet acc (trendKey m) (trendGroupOf m)) := rfl
    rw [hstep, ih]
    cases hlw : lastWith (fun m' => trendKey m' == k) rest with
    | some m' => simp [lastWith, hlw]
    | none =>
      simp only [lastWith, hlw]
      by_cases hk : trendKey m = k
      · subst hk
        simp [alookup_objSet_self]
      · have hb : (trendKey m == k) = false := by
          simp [hk]
        rw [alookup_objSet_ne acc (trendKey m) (trendGroupOf m) k (fun h => hk h.symm)]
        simp [hb]

lemma nodup_keys_trendsAcc (metas : List DocMetadata) :
    ∀ acc, (keysOf acc).Nodup → (keysOf (trendsAcc metas acc)).Nodup := by
  induction metas with
  | nil => intro acc h; exact h
  | cons m rest ih =>
    intro acc h
    exact ih _ (nodup_keys_objSet acc (trendKey m) (trendGroupOf m) h)

lemma key_consistent_trendsAcc (metas : List DocMetadata) :
    ∀ acc, (∀ p ∈ acc, p.1 = groupKey p.2) →
      ∀ p ∈ trendsAcc metas acc, p.1 = groupKey p.2 := by
  induction metas with
  | nil => intro acc h; exact h
  | cons m rest ih =>
    intro acc h
    refine ih _ ?_
    intro p hp
    rcases mem_objSet acc (trendKey m) (trendGroupOf m) p hp with h' | h'
    · subst h'
      exact (groupKey_trendGroupOf m).symm
    · exact h p h'

lemma alookup_of_mem_nodup (l : List (String × TrendGroup)) :
    (keysOf l).Nodup → ∀ (k : String) (g : TrendGroup), (k, g) ∈ l →
      alookup l k = some g := by
  induction l with
  | nil => intro _ k g hm; simp at hm
  | cons p rest ih =>
    obtain ⟨k0, v0⟩ := p
    intro hnd k g hm
    simp only [keysOf, List.map_cons, List.nodup_cons] at hnd
    rcases List.mem_cons.mp hm with h | h
    · injection h with hk hg
      subst hk
      subst hg
      simp [alookup]
    · have hk0 : k0 ≠ k := by
        intro he
        subst he
        exact hnd.1 (List.mem_map.mpr ⟨(k0, g), h, rfl⟩)
      simpa [alookup, hk0] using ih hnd.2 k g h

lemma mem_of_alookup (l : List (String × TrendGroup)) (k : String) (g : TrendGroup)
    (h : alookup l k = some g) : (k, g) ∈ l := by
  induction l with
  | nil => simp [alookup] at h
  | cons p rest ih =>
    obtain ⟨k0, v0⟩ := p
    by_cases h0 : k0 = k
    · subst h0
      simp only [alookup, eq_self_iff_true, if_true, Option.some.injEq] at h
      subst h
      exact List.mem_cons_self _ _
    · simp only [alookup, if_neg h0] at h
      exact List.mem_cons_of_mem _ (ih h)

lemma lastWith_mem_prop {α : Type} (p : α → Bool) :
    ∀ (l : List α) (y : α), lastWith p l = some y → p y = true ∧ y ∈ l := by
  intro l
  induction l with
  | nil => intro y hy; simp [lastWith] at hy
  | cons x rest ih =>
    intro y hy
    cases hlw : lastWith p rest with
    | some y2 =>
      simp only [lastWith, hlw] at hy
      have hy2 : y2 = y := by simpa using hy
      subst hy2
      rcases ih _ hlw with ⟨h1, h2⟩
      exact ⟨h1, List.mem_cons_of_mem _ h2⟩
    | none =>
      simp only [lastWith, hlw] at hy
      by_cases hx : p x = true
      · rw [if_pos hx] at hy
        have hxy : x = y := by simpa using hy
        subst hxy
        exact ⟨hx, List.mem_cons_self _ _⟩
      · rw [if_neg hx] at hy
        cases hy

lemma lastWith_isSome_of_mem {α : Type} (p : α → Bool) :
    ∀ (l : List α) (x : α), x ∈ l → p x = true → ∃ y, lastWith p l = some y := by
  intro l
  induction l with
  | nil => intro x hx _; simp at hx
  | cons z rest ih =>
    intro x hx hp
    cases hlw : lastWith p rest with
    | some y2 => exact ⟨y2, by simp [lastWith, hlw]⟩
    | none =>
      rcases List.mem_cons.mp hx with h | h
      · subst h
        exact ⟨x, by simp [lastWith, hlw, hp]⟩
      · rcases ih x h hp with ⟨y2, hy2⟩
        rw [hy2] at hlw
        cases hlw

/-- A metadata record with company "a" and date "b_c" (other fields as the
ingestion defaults). Its grouping key is the string "a_b_c". -/
def collisionMetaA : DocMetadata :=
  { emptyMetadata with company := JVal.str "a", date := JVal.str "b_c" }

/-- A metadata record with company "a_b" and date "c": a different
(company, date) pair whose grouping key is also "a_b_c". -/
def collisionMetaB : DocMetadata :=
  { emptyMetadata with company := JVal.str "a_b", date := JVal.str "c" }

/-- Counterexample for C10: grouping is by the concatenated string
`${company}_${date}`, which is not injective on (company, date) pairs.
For the store order [A, B] with A = ("a", "b_c") and B = ("a_b", "c") the
two distinct pairs share the key "a_b_c": A is in the list, yet no returned
entry carries A's company and date — A's group is absorbed by B, so the
claim that records sharing a (company, date) pair are collapsed into an
entry of their own (scored by the last such record) fails. -/
theorem getESGTrends_pair_counterexample :
    collisionMetaA ∈ [collisionMetaA, collisionMetaB] ∧
    collisionMetaA.company = JVal.str "a" ∧
    collisionMetaA.date = JVal.str "b_c" ∧
    getESGTrends [collisionMetaA, collisionMetaB] = [trendGroupOf collisionMetaB] ∧
    ∀ g ∈ getESGTrends [collisionMetaA, collisionMetaB],
      ¬(g.company = JVal.str "a" ∧ g.date = JVal.str "b_c") := by
  have heval : getESGTrends [collisionMetaA, collisionMetaB] =
      [trendGroupOf collisionMetaB] := rfl
  refine ⟨List.mem_cons_self _ _, rfl, rfl, heval, ?_⟩
  intro g hg
  rw [heval] at hg
  have hgB : g = trendGroupOf collisionMetaB := List.mem_singleton.mp hg
  subst hgB
  rintro ⟨hc, _⟩
  have : JVal.str "a_b" = JVal.str "a" := hc
  simp at this

/-- C10 (amended): `getESGTrends` returns at most one entry per (company,
date) pair — two entries agreeing on company and date are equal — and it
groups records by the string key `${company}_${date}`: every returned
entry is exactly the group of the record appearing last in store order
among those with its key, and every record is represented by the entry
carrying its key (distinct pairs whose concatenated keys coincide are
merged into that one entry). -/
theorem getESGTrends_grouped_by_key (metas : List DocMetadata) :
    (∀ g, g ∈ getESGTrends metas →
      ∃ m, lastWith (fun m' => trendKey m' == groupKey g) metas = some m ∧
        g = trendGroupOf m) ∧
    (∀ m, m ∈ metas → ∃ g, g ∈ getESGTrends metas ∧ groupKey g = trendKey m) ∧
    (∀ g1 g2, g1 ∈ getESGTrends metas → g2 ∈ getESGTrends metas →
      g1.company = g2.company → g1.date = g2.date → g1 = g2) := by
  have hnodup : (keysOf (trendsAcc metas [])).Nodup :=
    nodup_keys_trendsAcc metas [] (by simp [keysOf])
  have hcons : ∀ p ∈ trendsAcc metas [], p.1 = groupKey p.2 :=
    key_consistent_trendsAcc metas [] (by simp)
  have hlk : ∀ g, g ∈ getESGTrends metas →
      alookup (trendsAcc metas []) (groupKey g) = some g := by
    intro g hg
    unfold getESGTrends at hg
    rcases List.mem_map.mp hg with ⟨p, hp, hsnd⟩
    obtain ⟨k0, g0⟩ := p
    have hfst : k0 = groupKey g0 := hcons (k0, g0) hp
    have hg0 : g0 = g := hsnd
    subst hg0
    subst hfst
    exact alookup_of_mem_nodup _ hnodup _ _ hp
  refine ⟨?_, ?_, ?_⟩
  · intro g hg
    have h := hlk g hg
    rw [trendsAcc_alookup] at h
    cases hlw : lastWith (fun m' => trendKey m' == groupKey g) metas with
    | none =>
      rw [hlw] at h
      simp [alookup] at h
    | some m =>
      rw [hlw] at h
      refine ⟨m, rfl, ?_⟩
      have : trendGroupOf m = g := by simpa using h
      exact this.symm
  · intro m hm
    have hpm : (fun m' => trendKey m' == trendKey m) m = true := by simp
    obtain ⟨y, hy⟩ :=
      lastWith_isSome_of_mem (fun m' => trendKey m' == trendKey m) metas m hm hpm
    have h := trendsAcc_alookup metas [] (trendKey m)
    rw [hy] at h
    have hmem := mem_of_alookup _ _ _ h
    refine ⟨trendGroupOf y, ?_, ?_⟩
    · exact List.mem_map.mpr ⟨(trendKey m, trendGroupOf y), hmem, rfl⟩
    · have hprop := (lastWith_mem_prop _ metas y hy).1
      have hkey : trendKey y = trendKey m := by simpa using hprop
      rw [groupKey_trendGroupOf]
      exact hkey
  · intro g1 g2 h1 h2 hc hd
    have hk : groupKey g1 = groupKey g2 := by
      unfold groupKey
      rw [hc, hd]
    have e1 := hlk g1 h1
    have e2 := hlk g2 h2
    rw [hk, e2] at e1
    exact (Option.some.injEq .. ▸ e1).symm

/-- Witness for C10: the membership hypothesis discharged on a one-record
store, which is represented by the entry carrying its key. -/
theorem getESGTrends_grouped_by_key_witness :
    collisionMetaA ∈ [collisionMetaA] ∧
      ∃ g, g ∈ getESGTrends [collisionMetaA] ∧ groupKey g = trendKey collisionMetaA := by
  have hm : collisionMetaA ∈ [collisionMetaA] := List.mem_singleton.mpr rfl
  exact ⟨hm, (getESGTrends_grouped_by_key [collisionMetaA]).2.1 collisionMetaA hm⟩
